import Mathlib

/-!
# Verification of the monarch distributed debugger (`monarch/_src/actor/debugger.py`)

This file gives a shallow embedding of the debugger module and proves the
spec's claims about it.

Modelling conventions:
* Byte strings (`bytes`) are modelled as `String` (UTF-8 encoding of a line is
  represented by the line itself; `encode` is injective so nothing is lost).
* `asyncio` queues and awaits are modelled by a *script* (`List Ev`): each
  suspension point of `DebugSession._event_loop` consumes the next script
  event, which says what that await yielded (a message from `_message_queue`,
  a console line from `debug_io.input()`, completion of
  `_pending_send_to_actor.put`, or cancellation of the pending await).
  A run that exhausts its script mid-await ends with exit kind `blocked`
  (the coroutine is still suspended; nothing more is observed).
* Console output (`debug_io.output`) is recorded in an output trace; output
  awaits are not modelled as cancellation points.
-/

namespace Monarch

/-- A debug frame sent by the remote debugger (`DebuggerWrite` in
`pdb_wrapper.py`): opaque payload plus optional source-location metadata. -/
structure DebuggerWrite where
  payload : String
  function : Option String
  lineno : Option Nat
deriving DecidableEq

/-- A control token on a session's `_message_queue`: the strings `"detach"`,
`"read"`, or a tuple `("write", frame)`. -/
inductive Msg where
| detach
| read
| write (w : DebuggerWrite)
deriving DecidableEq

/-- One resolved await of the event loop:
`msg m` — `_message_queue.get()` returned `m`;
`line s` — `debug_io.input()` returned `s`;
`putOk` — `_pending_send_to_actor.put(...)` completed;
`cancel` — the pending await was cancelled. -/
inductive Ev where
| msg (m : Msg)
| line (s : String)
| putOk
| cancel
deriving DecidableEq

/-- How a run of `_event_loop` ended.
`detachToken`: a `"detach"` message broke the loop.
`detachCmd`: the console line (stripped) was `"detach"` (sets `_need_read`).
`afterCast`: a preset line was pushed and `break_after` broke the loop.
`cancelledQueue`: cancelled at `_message_queue.get()` (outside the `try`).
`cancelledRead`: cancelled inside the read branch (sets `_need_read`).
`blocked`: the script ended while the loop was awaiting. -/
inductive ExitKind where
| detachToken
| detachCmd
| afterCast
| cancelledQueue
| cancelledRead
| blocked
deriving DecidableEq

/-- Observable actions of a run: a successful push of an encoded input line
onto `_pending_send_to_actor`, or consumption of a write frame. -/
inductive Act where
| push (s : String)
| write (w : DebuggerWrite)
deriving DecidableEq

/-- The state of one `DebugSession` object. -/
structure DebugSession where
  rank : Nat
  coords : List (String × Nat)
  hostname : String
  actorName : String
  active : Bool
  pending : List String
  outputs : List DebuggerWrite
  functionLineno : Option (String × Nat)
  needRead : Bool
deriving DecidableEq

/-- Python `line.strip("\n")`: remove leading and trailing newline chars. -/
def stripNl (s : String) : String :=
  ⟨((s.toList.dropWhile (· = '\n')).reverse.dropWhile (· = '\n')).reverse⟩

/-- Result of a run of the event loop: final session state, exit kind, action
trace, console output trace, unconsumed script. -/
structure LoopRes where
  st : DebugSession
  exit : ExitKind
  acts : List Act
  out : List String
  rest : List Ev
deriving DecidableEq

/-- The body of the `message == "read"` branch when `line` is preset
(`break_after = True`): strip-check against `"detach"`, else push `line + "\n"`
and break.  Never loops back. -/
def presetRead (evs : List Ev) (st : DebugSession) (l : String) : LoopRes :=
  if stripNl l = "detach" then
    ⟨{st with needRead := true}, .detachCmd, [], [], evs⟩
  else
    match evs with
    | .putOk :: rest =>
      ⟨{st with pending := st.pending ++ [l ++ "\n"], outputs := []}, .afterCast,
        [.push (l ++ "\n")], [], rest⟩
    | .cancel :: rest => ⟨{st with needRead := true}, .cancelledRead, [], [], rest⟩
    | _ => ⟨st, .blocked, [], [], evs⟩

/-- Embeds the `while True` loop of `DebugSession._event_loop` (lines 175–220 of
`debugger.py`), driven by the await script `evs`.  `line` is the preset line
parameter, `sup` is `suppress_output`. -/
def eventLoop : List Ev → DebugSession → Option String → Bool → LoopRes
  | evs, st, line, sup =>
    if st.needRead then
      -- `self._need_read = False; message = "read"` without touching the queue
      match line with
      | some l => presetRead evs {st with needRead := false} l
      | none =>
        match evs with
        | .line s :: rest =>
          if stripNl s = "detach" then
            ⟨{st with needRead := true}, .detachCmd, [], [], rest⟩
          else
            match rest with
            | .putOk :: rest2 =>
              let st2 : DebugSession :=
                {st with needRead := false,
                         pending := st.pending ++ [s ++ "\n"], outputs := []}
              let r := eventLoop rest2 st2 none sup
              {r with acts := .push (s ++ "\n") :: r.acts}
            | .cancel :: rest2 =>
              ⟨{st with needRead := true}, .cancelledRead, [], [], rest2⟩
            | _ => ⟨{st with needRead := false}, .blocked, [], [], rest⟩
        | .cancel :: rest => ⟨{st with needRead := true}, .cancelledRead, [], [], rest⟩
        | _ => ⟨{st with needRead := false}, .blocked, [], [], evs⟩
    else
      match evs with
      | .msg .detach :: rest => ⟨st, .detachToken, [], [], rest⟩
      | .msg .read :: rest =>
        match line with
        | some l => presetRead rest st l
        | none =>
          match rest with
          | .line s :: rest1 =>
            if stripNl s = "detach" then
              ⟨{st with needRead := true}, .detachCmd, [], [], rest1⟩
            else
              match rest1 with
              | .putOk :: rest2 =>
                let st2 : DebugSession :=
                  {st with pending := st.pending ++ [s ++ "\n"], outputs := []}
                let r := eventLoop rest2 st2 none sup
                {r with acts := .push (s ++ "\n") :: r.acts}
              | .cancel :: rest2 =>
                ⟨{st with needRead := true}, .cancelledRead, [], [], rest2⟩
              | _ => ⟨st, .blocked, [], [], rest1⟩
          | .cancel :: rest1 => ⟨{st with needRead := true}, .cancelledRead, [], [], rest1⟩
          | _ => ⟨st, .blocked, [], [], rest⟩
      | .msg (.write w) :: rest =>
        let st2 : DebugSession := {st with outputs := st.outputs ++ [w]}
        let r := eventLoop rest st2 line sup
        {r with acts := .write w :: r.acts,
                out := (if sup then [] else [w.payload]) ++ r.out}
      | .cancel :: rest => ⟨st, .cancelledQueue, [], [], rest⟩
      | _ => ⟨st, .blocked, [], [], evs⟩

/-- How `DebugSession.attach` ends: normal return, a propagating
`CancelledError`, or still suspended (script exhausted). -/
inductive AttachExit where
| normal
| cancelled
| blocked
deriving DecidableEq

/-- Result of `DebugSession.attach`. -/
structure AttachRes where
  st : DebugSession
  exit : AttachExit
  loopExit : ExitKind
  acts : List Act
  out : List String
  rest : List Ev
deriving DecidableEq

/-- The replay prologue of `_event_loop` (lines 162–173): when output is not
suppressed, print a banner (if the buffer is non-empty) and then every
buffered frame's payload. -/
def replayOut (sup : Bool) (st : DebugSession) : List String :=
  if sup then []
  else
    (if st.outputs.length > 0 then
      ["<last pdb output for " ++ st.actorName ++ " " ++ toString st.rank ++ " follows>\n"]
     else []) ++ st.outputs.map (·.payload)

/-- Embeds `DebugSession.attach` (lines 235–249): set `_active = True`, print the
attach banner, run the event loop (whose prologue replays the buffer), and on
*normal* completion of the loop print the detach lines and reset
`_active = False`.  If the loop is cancelled the exception propagates and
`_active` is left `True`. -/
def attachRun (evs : List Ev) (st : DebugSession) (line : Option String)
    (sup : Bool) : AttachRes :=
  let st1 : DebugSession := {st with active := true}
  let pre : List String :=
    (if sup then []
     else ["Attached to debug session for " ++ st1.actorName ++ " " ++
             toString st1.rank ++ " (" ++ st1.hostname ++ ")\n"]) ++
    replayOut sup st1
  let r := eventLoop evs st1 line sup
  match r.exit with
  | .detachToken | .detachCmd | .afterCast =>
    ⟨{r.st with active := false}, .normal, r.exit, r.acts,
      pre ++ r.out ++
        (if sup then []
         else ["Detaching from debug session for " ++ r.st.actorName ++ " " ++
                 toString r.st.rank ++ " (" ++ r.st.hostname ++ ")\n",
               "Detached from debug session for " ++ r.st.actorName ++ " " ++
                 toString r.st.rank ++ " (" ++ r.st.hostname ++ ")\n"]),
      r.rest⟩
  | .cancelledQueue | .cancelledRead =>
    ⟨r.st, .cancelled, r.exit, r.acts, pre ++ r.out, r.rest⟩
  | .blocked => ⟨r.st, .blocked, r.exit, r.acts, pre ++ r.out, r.rest⟩

/-- Embeds `DebugSession.debugger_write` (lines 262–265): update `_function_lineno`
only when the frame carries both a function name and a line number, then post
`("write", write)` on the message queue (the posted token is returned). -/
def debuggerWriteOp (st : DebugSession) (w : DebuggerWrite) : DebugSession × Msg :=
  match w.function, w.lineno with
  | some f, some n => ({st with functionLineno := some (f, n)}, .write w)
  | _, _ => (st, .write w)

/-- Embeds `DebugSession.debugger_read` (lines 255–260): post `"read"` on the message
queue, then pop one input line from `_pending_send_to_actor` (if available)
and truncate it to `size` bytes. -/
def debuggerReadOp (st : DebugSession) (size : Nat) :
    Msg × Option (DebuggerWrite × DebugSession) :=
  (.read,
    match st.pending with
    | [] => none
    | d :: restPending =>
      some (⟨⟨d.toList.take size⟩, none, none⟩, {st with pending := restPending}))

/-- Embeds `DebugSession.detach` (lines 251–253): post `"detach"` only if a console
is attached. -/
def detachOp (st : DebugSession) : Option Msg :=
  if st.active then some .detach else none

/-! ## Rank selectors and the session registry (`DebugSessions`) -/

/-- The value of `sys.maxsize` on a 64-bit CPython. -/
def sysMaxsize : Nat := 9223372036854775807

/-- A Python `range(start, stop, step)` object as produced by the parser
(`step` is always a parsed non-negative int; `range` construction rejects
`step = 0`). -/
structure RankRange where
  start : Nat
  stop : Nat
  step : Nat
deriving DecidableEq

/-- Python `x in range(start, stop, step)` for a positive step. -/
def RankRange.mem (r : RankRange) (x : Nat) : Bool :=
  decide (r.start ≤ x) && decide (x < r.stop) && decide ((x - r.start) % r.step = 0)

/-- The value attached to one dimension inside a `dims` selector:
`int`, `List[int]` or `range`. -/
inductive DimSel where
| single (n : Nat)
| list (l : List Nat)
| range (r : RankRange)
deriving DecidableEq

/-- Embeds `RanksType = Union[int, List[int], range, Dict[str, Union[range, List[int], int]]]`. -/
inductive RanksType where
| single (n : Nat)
| list (l : List Nat)
| range (r : RankRange)
| dims (d : List (String × DimSel))
deriving DecidableEq

/-- Python dicts are modelled as association lists in insertion order. -/
def alookup {α β : Type} [DecidableEq α] : List (α × β) → α → Option β
  | [], _ => none
  | (k', v) :: rest, k => if k' = k then some v else alookup rest k

/-- Python `d[k] = v`: update in place if present, else append. -/
def aupdate {α β : Type} [DecidableEq α] : List (α × β) → α → β → List (α × β)
  | [], k, v => [(k, v)]
  | (k', v') :: rest, k, v =>
    if k' = k then (k, v) :: rest else (k', v') :: aupdate rest k v

/-- Python `d.pop(k)` / `del d[k]` (key assumed present at most once). -/
def aerase {α β : Type} [DecidableEq α] : List (α × β) → α → List (α × β)
  | [], _ => []
  | (k', v) :: rest, k => if k' = k then rest else (k', v) :: aerase rest k

/-- Embeds `DebugSessions._sessions : Dict[str, Dict[int, DebugSession]]`. -/
abbrev Registry := List (String × List (Nat × DebugSession))

/-- Embeds `DebugSessions.insert` (lines 275–283). -/
def DebugSessions.insert (reg : Registry) (s : DebugSession) : Except String Registry :=
  match alookup reg s.actorName with
  | none => .ok (aupdate reg s.actorName [(s.rank, s)])
  | some bucket =>
    match alookup bucket s.rank with
    | none => .ok (aupdate reg s.actorName (aupdate bucket s.rank s))
    | some _ =>
      .error ("Debug session for rank " ++ toString s.rank ++
        " already exists for actor " ++ s.actorName)

/-- Embeds `DebugSessions.remove` (lines 285–293): pop the session, and delete the
actor's bucket if it became empty. -/
def DebugSessions.remove (reg : Registry) (actorName : String) (rank : Nat) :
    Except String (DebugSession × Registry) :=
  match alookup reg actorName with
  | none => .error ("No debug sessions for actor " ++ actorName)
  | some bucket =>
    match alookup bucket rank with
    | none =>
      .error ("No debug session for rank " ++ toString rank ++
        " for actor " ++ actorName)
    | some s =>
      let bucket2 := aerase bucket rank
      .ok (s,
        if bucket2.length = 0 then aerase reg actorName
        else aupdate reg actorName bucket2)

/-- Embeds `DebugSessions.get` (lines 295–300). -/
def DebugSessions.get (reg : Registry) (actorName : String) (rank : Nat) :
    Except String DebugSession :=
  match alookup reg actorName with
  | none => .error ("No debug sessions for actor " ++ actorName)
  | some bucket =>
    match alookup bucket rank with
    | none =>
      .error ("No debug session for rank " ++ toString rank ++
        " for actor " ++ actorName)
    | some s => .ok s

/-- Embeds `DebugSessions.__len__`. -/
def DebugSessions.size (reg : Registry) : Nat :=
  (reg.map (fun p => p.2.length)).sum

/-- Embeds `DebugSessions.__contains__`. -/
def DebugSessions.containsKey (reg : Registry) (actorName : String) (rank : Nat) : Bool :=
  match alookup reg actorName with
  | none => false
  | some bucket => (alookup bucket rank).isSome

/-- The per-dimension check of `DebugSessions.iter`'s dims case (lines
327–339): a session is excluded if the dimension is absent from its coords, or
its coordinate is not selected. -/
def dimMatches (coords : List (String × Nat)) (dim : String) (sel : DimSel) : Bool :=
  match alookup coords dim with
  | none => false
  | some c =>
    match sel with
    | .single n => c = n
    | .list l => l.contains c
    | .range r => r.mem c

/-- A session is yielded by the dims case iff every named dimension matches. -/
def selectedByDims (dims : List (String × DimSel)) (s : DebugSession) : Bool :=
  dims.all (fun p => dimMatches s.coords p.1 p.2)

/-- Embeds `DebugSessions.iter` (lines 302–345) as the list of sessions yielded, in
generator order. -/
def DebugSessions.iterSel (reg : Registry)
    (sel : Option (String × Option RanksType)) : List DebugSession :=
  match sel with
  | none => (reg.map (fun p => p.2.map Prod.snd)).flatten
  | some (actorName, ranks) =>
    match alookup reg actorName with
    | none => []
    | some bucket =>
      match ranks with
      | none => bucket.map Prod.snd
      | some (.single n) =>
        match alookup bucket n with
        | some s => [s]
        | none => []
      | some (.list l) => l.filterMap (fun r => alookup bucket r)
      | some (.range r) => (bucket.filter (fun p => r.mem p.1)).map Prod.snd
      | some (.dims d) => (bucket.filter (fun p => selectedByDims d p.2)).map Prod.snd

/-- Replace the session stored under `(name, rank)` by `f` of it (no-op if
absent). -/
def updateSession (reg : Registry) (name : String) (rank : Nat)
    (f : DebugSession → DebugSession) : Registry :=
  match alookup reg name with
  | none => reg
  | some bucket =>
    match alookup bucket rank with
    | none => reg
    | some s => aupdate reg name (aupdate bucket rank (f s))

/-- Embeds `DebugController._cast_input_and_wait` (lines 664–672): for every session
yielded by `iter(selection)` run
`session.attach(io, line=command, suppress_output=True)` and join.  The
concurrent `gather` over distinct sessions touches disjoint state, so it is
modelled as a fold over the yielded sessions; `scripts` gives each session's
await script. -/
def castInputAndWait (reg : Registry) (command : String)
    (sel : Option (String × Option RanksType))
    (scripts : String → Nat → List Ev) : Registry :=
  (DebugSessions.iterSel reg sel).foldl
    (fun acc s =>
      updateSession acc s.actorName s.rank
        (fun cur => (attachRun (scripts s.actorName s.rank) cur (some command) true).st))
    reg

/-! ## Command grammar and parser

The lark grammar of `_get_debug_input_parser` (lines 372–398) with
`%ignore WS`, together with `_IntoDebugCommandTransformer`, is embedded as a
recursive-descent parser over `List Char`.  Terminals are matched greedily
(longest match), mirroring lark's scanner; the alternatives of `ranks` and
`dim` are mutually exclusive on a complete match, so ordered choice with
backtracking recognises the same language. -/

/-- Python regex `\w` on the ASCII inputs at hand. -/
def isWordC (c : Char) : Bool := c.isAlphanum || c = '_'

/-- Drop ignorable whitespace (`%ignore WS`). -/
def skipWS (l : List Char) : List Char := l.dropWhile Char.isWhitespace

/-- Numeric value of a digit string. -/
def natOfDigits (l : List Char) : Nat :=
  l.foldl (fun a c => a * 10 + (c.toNat - '0'.toNat)) 0

/-- The `INT` terminal (`/\d+/`, longest match) transformed by `int(...)`. -/
def parseInt (l : List Char) : Option (Nat × List Char) :=
  let ds := l.takeWhile Char.isDigit
  if ds.isEmpty then none else some (natOfDigits ds, l.dropWhile Char.isDigit)

/-- Strip an exact literal token. -/
def stripPfx : List Char → List Char → Option (List Char)
  | [], l => some l
  | _ :: _, [] => none
  | c :: cs, x :: xs => if x = c then stripPfx cs xs else none

/-- Embeds `range(*items)`: the transformer's `rank_range` with `stop`/`step`
defaults already applied; `none` third component means the `(":" step)?`
group was absent.  Python `range` raises `ValueError` on step 0, which the
`parse` wrapper turns into `None`. -/
def mkRange (a b : Nat) (c : Option Nat) : Option RankRange :=
  match c with
  | none => some ⟨a, b, 1⟩
  | some 0 => none
  | some c => some ⟨a, b, c⟩

/-- Embeds `rank_range: start ":" stop (":" step)?` with
`start: INT?` (default 0), `stop: INT?` (default `sys.maxsize`),
`step: INT?` (default 1). -/
def parseRankRange (l : List Char) : Option (RankRange × List Char) :=
  let l0 := skipWS l
  let (a, l1) :=
    match parseInt l0 with
    | some (n, r) => (n, r)
    | none => (0, l0)
  match skipWS l1 with
  | ':' :: l3 =>
    let l4 := skipWS l3
    let (b, l5) :=
      match parseInt l4 with
      | some (n, r) => (n, r)
      | none => (sysMaxsize, l4)
    match skipWS l5 with
    | ':' :: l7 =>
      let l8 := skipWS l7
      let (c, l9) :=
        match parseInt l8 with
        | some (n, r) => (n, r)
        | none => (1, l8)
      match mkRange a b (some c) with
      | some rr => some (rr, l9)
      | none => none
    | _ => some (⟨a, b, 1⟩, l5)
  | _ => none

/-- The `("," INT)*` tail of `rank_list`, greedily. -/
def parseRankListRest : Nat → List Nat → List Char → List Nat × List Char
  | 0, acc, l => (acc, l)
  | fuel + 1, acc, l =>
    match skipWS l with
    | ',' :: l1 =>
      match parseInt (skipWS l1) with
      | some (n, l2) => parseRankListRest fuel (acc ++ [n]) l2
      | none => (acc, l)
    | _ => (acc, l)

/-- Embeds `rank_list: INT "," INT ("," INT)*`. -/
def parseRankList (l : List Char) : Option (List Nat × List Char) :=
  match parseInt (skipWS l) with
  | none => none
  | some (n1, l1) =>
    match skipWS l1 with
    | ',' :: l2 =>
      match parseInt (skipWS l2) with
      | none => none
      | some (n2, l3) => some (parseRankListRest l3.length [n1, n2] l3)
    | _ => none

/-- The `CNAME` terminal (letter or underscore, then word chars). -/
def parseCname (l : List Char) : Option (List Char × List Char) :=
  match skipWS l with
  | c :: rest =>
    if c.isAlpha || c = '_' then
      some (c :: rest.takeWhile isWordC, rest.dropWhile isWordC)
    else none
  | [] => none

/-- Embeds `dim: CNAME "=" (rank_range | "(" rank_list ")" | INT)`. -/
def parseDim (l : List Char) : Option ((String × DimSel) × List Char) :=
  match parseCname l with
  | none => none
  | some (name, l1) =>
    match skipWS l1 with
    | '=' :: l2 =>
      match parseRankRange l2 with
      | some (r, l3) => some ((⟨name⟩, .range r), l3)
      | none =>
        match skipWS l2 with
        | '(' :: l3 =>
          match parseRankList l3 with
          | some (ns, l4) =>
            match skipWS l4 with
            | ')' :: l5 => some ((⟨name⟩, .list ns), l5)
            | _ => none
          | none => none
        | _ =>
          match parseInt (skipWS l2) with
          | some (n, l3) => some ((⟨name⟩, .single n), l3)
          | none => none
    | _ => none

/-- The `("," dim)*` tail of `dims`; duplicates overwrite as in the
transformer's dict comprehension. -/
def parseDimsRest : Nat → List (String × DimSel) → List Char →
    List (String × DimSel) × List Char
  | 0, acc, l => (acc, l)
  | fuel + 1, acc, l =>
    match skipWS l with
    | ',' :: l1 =>
      match parseDim l1 with
      | some (d, l2) => parseDimsRest fuel (aupdate acc d.1 d.2) l2
      | none => (acc, l)
    | _ => (acc, l)

/-- Embeds `dims: dim ("," dim)*`. -/
def parseDims (l : List Char) : Option (List (String × DimSel) × List Char) :=
  match parseDim l with
  | none => none
  | some (d, l1) => some (parseDimsRest l1.length [(d.1, d.2)] l1)

/-- Run an alternative of `ranks` and require the closing `")"`. -/
def closeAfter {α : Type} (p : List Char → Option (α × List Char))
    (l : List Char) : Option (α × List Char) :=
  match p l with
  | none => none
  | some (v, l1) =>
    match skipWS l1 with
    | ')' :: l2 => some (v, l2)
    | _ => none

/-- Embeds `ranks: "ranks(" (dims | rank_range | rank_list | INT) ")"`. -/
def parseRanks (l : List Char) : Option (RanksType × List Char) :=
  match stripPfx "ranks(".toList (skipWS l) with
  | none => none
  | some l1 =>
    ((closeAfter parseDims l1).map (fun p => (RanksType.dims p.1, p.2))) <|>
    ((closeAfter parseRankRange l1).map (fun p => (RanksType.range p.1, p.2))) <|>
    ((closeAfter parseRankList l1).map (fun p => (RanksType.list p.1, p.2))) <|>
    ((closeAfter (fun l' => parseInt (skipWS l')) l1).map
      (fun p => (RanksType.single p.1, p.2)))

/-- Embeds `pdb_command: /\w+.*/`: after ignorable whitespace the rest of the line
up to a newline, required to start with a word character. -/
def parsePdb (l : List Char) : Option (String × List Char) :=
  match skipWS l with
  | c :: rest =>
    if isWordC c then
      some (⟨c :: rest.takeWhile (· ≠ '\n')⟩, rest.dropWhile (· ≠ '\n'))
    else none
  | [] => none

/-- The output of `DebugCommand.parse`: one of the dataclasses
`Attach`, `ListCommand`, `Help`, `Quit`, `Continue`, `Cast`. -/
inductive DebugCommand where
| attach (actorName : String) (rank : Nat)
| listCmd
| help
| quit
| continueCmd
| cast (actorName : String) (ranks : RanksType) (command : String)
deriving DecidableEq

/-- Only ignorable whitespace remains. -/
def atEnd (l : List Char) : Bool := (skipWS l).isEmpty

/-- Take the longest `\w+` token. -/
def takeWord (l : List Char) : List Char × List Char :=
  (l.takeWhile isWordC, l.dropWhile isWordC)

/-- Embeds `help: "h" | "help"`. -/
def tryHelp (l : List Char) : Option DebugCommand :=
  let (w, r) := takeWord (skipWS l)
  if (w = "help".toList || w = "h".toList) && atEnd r then some .help else none

/-- Embeds `list: "l" | "list"`. -/
def tryListCmd (l : List Char) : Option DebugCommand :=
  let (w, r) := takeWord (skipWS l)
  if (w = "list".toList || w = "l".toList) && atEnd r then some .listCmd else none

/-- Embeds `quit: "q" | "quit"`. -/
def tryQuit (l : List Char) : Option DebugCommand :=
  let (w, r) := takeWord (skipWS l)
  if (w = "quit".toList || w = "q".toList) && atEnd r then some .quit else none

/-- Embeds `cont: "c" | "continue"`. -/
def tryCont (l : List Char) : Option DebugCommand :=
  let (w, r) := takeWord (skipWS l)
  if (w = "continue".toList || w = "c".toList) && atEnd r then some .continueCmd
  else none

/-- Embeds `attach: ("a" | "attach") _WS actor_name INT` with `actor_name: /\w+/`. -/
def tryAttach (l : List Char) : Option DebugCommand :=
  let (w, r) := takeWord (skipWS l)
  if w = "attach".toList || w = "a".toList then
    match r with
    | c :: r1 =>
      if c.isWhitespace then
        let (name, l2) := takeWord (skipWS r1)
        if name.isEmpty then none
        else
          match parseInt (skipWS l2) with
          | some (n, l3) => if atEnd l3 then some (.attach ⟨name⟩ n) else none
          | none => none
      else none
    | [] => none
  else none

/-- Embeds `cast: "cast" _WS actor_name ranks pdb_command`. -/
def tryCast (l : List Char) : Option DebugCommand :=
  let (w, r) := takeWord (skipWS l)
  if w = "cast".toList then
    match r with
    | c :: r1 =>
      if c.isWhitespace then
        let (name, l2) := takeWord (skipWS r1)
        if name.isEmpty then none
        else
          match parseRanks l2 with
          | some (rk, l3) =>
            match parsePdb l3 with
            | some (cmd, l4) =>
              if atEnd l4 then some (.cast ⟨name⟩ rk cmd) else none
            | none => none
          | none => none
      else none
    | [] => none
  else none

/-- Embeds `command: attach | list | cast | help | cont | quit`. -/
def parseCommandL (l : List Char) : Option DebugCommand :=
  tryAttach l <|> tryListCmd l <|> tryCast l <|> tryHelp l <|> tryCont l <|>
    tryQuit l

/-- Embeds `DebugCommand.parse` (lines 489–496): any parse or transform error is
caught, an error line is printed to the debug I/O, and `None` is returned. -/
def DebugCommand.parse (s : String) : Option DebugCommand :=
  parseCommandL s.toList

/-! ## Controller CLI binding (`enter`, `debug_cli_input`, `debug_cli_output`) -/

/-- The state of `DebugController` relevant to CLI binding: the currently
bound CLI actor id, whether `_debug_io` is a `DebugCliIO` (it is on
construction and after every `enter`), and the two CLI queues. -/
structure ControllerState where
  currentCliId : Option Nat
  ioIsCli : Bool
  inputQueue : List String
  outputQueue : List String
  taskRunning : Bool
deriving DecidableEq

/-- Embeds the CLI-related state set up by `DebugController.__init__`. -/
def ControllerState.init : ControllerState :=
  ⟨none, true, [], [], false⟩

/-- Embeds `DebugController.enter` (lines 585–609): cancel any previous console
task, bind the new CLI actor id, install a fresh `DebugCliIO`, and start a new
console task. -/
def ControllerState.enter (_c : ControllerState) (id : Nat) : ControllerState :=
  ⟨some id, true, [], [], true⟩

/-- Embeds `DebugController.debug_cli_input` (lines 725–738). -/
def debugCliInput (c : ControllerState) (inp : String) (id : Nat) :
    Except String ControllerState :=
  match c.currentCliId with
  | none => .error "Attempting to put debugger input, but not in a debug session"
  | some cur =>
    if cur ≠ id then
      .error ("Attempting to put debugger input with incorrect debug_cli_actor_id: " ++
        toString id ++ " (actual) vs. " ++ toString cur ++ " (expected)")
    else if ¬ c.ioIsCli then
      .error "Putting debugger input not supported in current mode"
    else .ok {c with inputQueue := c.inputQueue ++ [inp]}

/-- Embeds `DebugController.debug_cli_output` (lines 706–723): drain the output
queue. -/
def debugCliOutput (c : ControllerState) (id : Nat) :
    Except String (List String × ControllerState) :=
  match c.currentCliId with
  | none => .error "Attempting to retrieve debugger output, but not in a debug session"
  | some cur =>
    if cur ≠ id then
      .error ("Attempting to retrieve debugger output with incorrect debug_cli_actor_id: " ++
        toString id ++ " (actual) vs. " ++ toString cur ++ " (expected)")
    else if ¬ c.ioIsCli then
      .error "Retrieving debugger output not supported in current mode"
    else .ok (c.outputQueue, {c with outputQueue := []})

/-! ## Derived notions used by the theorems -/

/-- The pushed lines of an action trace. -/
def pushesOf (acts : List Act) : List String :=
  acts.filterMap (fun a => match a with | .push s => some s | .write _ => none)

/-- The write frames of an action trace. -/
def writesOf (acts : List Act) : List DebuggerWrite :=
  acts.filterMap (fun a => match a with | .write w => some w | .push _ => none)

/-- What `_outputs_since_last_input` must be after an action trace if it is
cleared exactly at each successful push and appended to at each consumed
write frame: the write frames after the last push (after the whole initial
buffer if no push occurred). -/
def bufAfter (init : List DebuggerWrite) : List Act → List DebuggerWrite
  | [] => init
  | .write w :: acts => bufAfter (init ++ [w]) acts
  | .push _ :: acts => bufAfter [] acts

/-- Look a session up by its `(actor_name, rank)` key. -/
def regGet (reg : Registry) (name : String) (rank : Nat) : Option DebugSession :=
  (alookup reg name).bind (fun bucket => alookup bucket rank)

/-- The `(actor_name, rank)` keys of the sessions yielded by `iter`. -/
def iterKeys (reg : Registry) (sel : Option (String × Option RanksType)) :
    List (String × Nat) :=
  (DebugSessions.iterSel reg sel).map (fun s => (s.actorName, s.rank))

/-- Registry well-formedness: actor names are unique and ranks are unique
within each bucket (Python dicts guarantee this). -/
def registryWF (reg : Registry) : Prop :=
  (reg.map Prod.fst).Nodup ∧ ∀ p ∈ reg, (p.2.map Prod.fst).Nodup

/-- A fresh session as built by `debugger_session_start` for rank 0 of
`"actor"`. -/
def sess0 : DebugSession :=
  ⟨0, [], "host", "actor", false, [], [], none, false⟩

/-- A registry holding exactly `sess0`. -/
def reg0 : Registry := [("actor", [(0, sess0)])]

/-- A sample output frame. -/
def frameA : DebuggerWrite := ⟨"(Pdb) ", none, none⟩

/-- A second sample output frame carrying source-location metadata. -/
def frameB : DebuggerWrite := ⟨"--Return--\n", some "to_debug", some 5⟩

/-! ## Helper lemmas about the event loop -/

theorem bufAfter_append (as bs : List Act) (init : List DebuggerWrite) :
    bufAfter init (as ++ bs) = bufAfter (bufAfter init as) bs := by
  induction as generalizing init with
  | nil => rfl
  | cons a as ih => cases a <;> simp [bufAfter, ih]

theorem presetRead_outputs (evs : List Ev) (st : DebugSession) (l : String) :
    (presetRead evs st l).st.outputs = bufAfter st.outputs (presetRead evs st l).acts := by
  unfold presetRead
  split
  · simp [bufAfter]
  · split <;> simp [bufAfter]

/-- The buffer `_outputs_since_last_input` after a run is exactly the write
frames consumed since the last successful push (the whole initial buffer plus
all consumed frames when no push happened). -/
theorem eventLoop_outputs (evs : List Ev) (st : DebugSession)
    (line : Option String) (sup : Bool) :
    (eventLoop evs st line sup).st.outputs =
      bufAfter st.outputs (eventLoop evs st line sup).acts := by
  induction evs, st, line, sup using eventLoop.induct with
  | case1 evs st sup h l =>
    rw [eventLoop.eq_def]; dsimp only; rw [if_pos h]
    exact presetRead_outputs evs {st with needRead := false} l
  | case2 st sup h s rest hd =>
    rw [eventLoop.eq_def]; dsimp only; rw [if_pos h]; simp [hd, bufAfter]
  | case3 st sup h s hd rest st2 ih =>
    rw [eventLoop.eq_def]; dsimp only; rw [if_pos h]; simp only [hd, if_neg, ite_false]
    simpa [bufAfter] using ih
  | case4 st sup h s hd rest =>
    rw [eventLoop.eq_def]; dsimp only; rw [if_pos h]; simp [hd, bufAfter]
  | case5 st sup h s rest hd h1 h2 =>
    rw [eventLoop.eq_def]; dsimp only; rw [if_pos h]
    cases rest with
    | nil => simp [hd, bufAfter]
    | cons e r =>
      cases e with
      | putOk => exact absurd rfl (h1 r)
      | cancel => exact absurd rfl (h2 r)
      | msg m => simp [hd, bufAfter]
      | line s2 => simp [hd, bufAfter]
  | case6 st sup h rest =>
    rw [eventLoop.eq_def]; dsimp only; rw [if_pos h]; simp [bufAfter]
  | case7 evs st sup h h1 h2 =>
    rw [eventLoop.eq_def]; dsimp only; rw [if_pos h]
    cases evs with
    | nil => simp [bufAfter]
    | cons e r =>
      cases e with
      | line s => exact absurd rfl (h1 s r)
      | cancel => exact absurd rfl (h2 r)
      | msg m => simp [bufAfter]
      | putOk => simp [bufAfter]
  | case8 st line sup h rest =>
    rw [eventLoop.eq_def]; dsimp only; rw [if_neg h]; simp [bufAfter]
  | case9 st sup h rest l =>
    rw [eventLoop.eq_def]; dsimp only; rw [if_neg h]
    exact presetRead_outputs rest st l
  | case10 st sup h s rest hd =>
    rw [eventLoop.eq_def]; dsimp only; rw [if_neg h]; simp [hd, bufAfter]
  | case11 st sup h s hd rest st2 ih =>
    rw [eventLoop.eq_def]; dsimp only; rw [if_neg h]; simp only [hd, if_neg, ite_false]
    simpa [bufAfter] using ih
  | case12 st sup h s hd rest =>
    rw [eventLoop.eq_def]; dsimp only; rw [if_neg h]; simp [hd, bufAfter]
  | case13 st sup h s rest hd h1 h2 =>
    rw [eventLoop.eq_def]; dsimp only; rw [if_neg h]
    cases rest with
    | nil => simp [hd, bufAfter]
    | cons e r =>
      cases e with
      | putOk => exact absurd rfl (h1 r)
      | cancel => exact absurd rfl (h2 r)
      | msg m => simp [hd, bufAfter]
      | line s2 => simp [hd, bufAfter]
  | case14 st sup h rest =>
    rw [eventLoop.eq_def]; dsimp only; rw [if_neg h]; simp [bufAfter]
  | case15 st sup h rest h1 h2 =>
    rw [eventLoop.eq_def]; dsimp only; rw [if_neg h]
    cases rest with
    | nil => simp [bufAfter]
    | cons e r =>
      cases e with
      | line s => exact absurd rfl (h1 s r)
      | cancel => exact absurd rfl (h2 r)
      | msg m => simp [bufAfter]
      | putOk => simp [bufAfter]
  | case16 st line sup h w rest st2 ih =>
    rw [eventLoop.eq_def]; dsimp only; rw [if_neg h]
    simpa [bufAfter] using ih
  | case17 st line sup h rest =>
    rw [eventLoop.eq_def]; dsimp only; rw [if_neg h]; simp [bufAfter]
  | case18 evs st line sup h h1 h2 h3 h4 =>
    rw [eventLoop.eq_def]; dsimp only; rw [if_neg h]
    cases evs with
    | nil => simp [bufAfter]
    | cons e r =>
      cases e with
      | line s => simp [bufAfter]
      | cancel => exact absurd rfl (h4 r)
      | putOk => simp [bufAfter]
      | msg m =>
        cases m with
        | detach => exact absurd rfl (h1 r)
        | read => exact absurd rfl (h2 r)
        | write w => exact absurd rfl (h3 w r)

theorem presetRead_facts (evs : List Ev) (st : DebugSession) (l : String) :
    (presetRead evs st l).st.active = st.active ∧
    (presetRead evs st l).st.functionLineno = st.functionLineno ∧
    (presetRead evs st l).st.pending = st.pending ++ pushesOf (presetRead evs st l).acts ∧
    (((presetRead evs st l).exit = .detachCmd ∨ (presetRead evs st l).exit = .cancelledRead) →
      (presetRead evs st l).st.needRead = true) := by
  unfold presetRead
  split
  · simp [pushesOf]
  · split <;> simp [pushesOf]

/-- State facts about a run: the identity fields and `_function_lineno` are
untouched by the loop, `_active` is untouched, `_pending_send_to_actor` grows
by exactly the pushed lines, and an exit from inside the read branch without a
push (`detach` command or cancellation there) leaves `_need_read` set. -/
theorem eventLoop_facts (evs : List Ev) (st : DebugSession)
    (line : Option String) (sup : Bool) :
    (eventLoop evs st line sup).st.active = st.active ∧
    (eventLoop evs st line sup).st.functionLineno = st.functionLineno ∧
    (eventLoop evs st line sup).st.pending =
      st.pending ++ pushesOf (eventLoop evs st line sup).acts ∧
    (((eventLoop evs st line sup).exit = .detachCmd ∨
        (eventLoop evs st line sup).exit = .cancelledRead) →
      (eventLoop evs st line sup).st.needRead = true) := by
  induction evs, st, line, sup using eventLoop.induct with
  | case1 evs st sup h l =>
    rw [eventLoop.eq_def]; dsimp only; rw [if_pos h]
    exact presetRead_facts evs {st with needRead := false} l
  | case2 st sup h s rest hd =>
    rw [eventLoop.eq_def]; dsimp only; rw [if_pos h]; simp [hd, pushesOf]
  | case3 st sup h s hd rest st2 ih =>
    rw [eventLoop.eq_def]; dsimp only; rw [if_pos h]
    simp only [hd, if_neg, ite_false]
    simpa [pushesOf] using ih
  | case4 st sup h s hd rest =>
    rw [eventLoop.eq_def]; dsimp only; rw [if_pos h]; simp [hd, pushesOf]
  | case5 st sup h s rest hd h1 h2 =>
    rw [eventLoop.eq_def]; dsimp only; rw [if_pos h]
    cases rest with
    | nil => simp [hd, pushesOf]
    | cons e r =>
      cases e with
      | putOk => exact absurd rfl (h1 r)
      | cancel => exact absurd rfl (h2 r)
      | msg m => simp [hd, pushesOf]
      | line s2 => simp [hd, pushesOf]
  | case6 st sup h rest =>
    rw [eventLoop.eq_def]; dsimp only; rw [if_pos h]; simp [pushesOf]
  | case7 evs st sup h h1 h2 =>
    rw [eventLoop.eq_def]; dsimp only; rw [if_pos h]
    cases evs with
    | nil => simp [pushesOf]
    | cons e r =>
      cases e with
      | line s => exact absurd rfl (h1 s r)
      | cancel => exact absurd rfl (h2 r)
      | msg m => simp [pushesOf]
      | putOk => simp [pushesOf]
  | case8 st line sup h rest =>
    rw [eventLoop.eq_def]; dsimp only; rw [if_neg h]; simp [pushesOf]
  | case9 st sup h rest l =>
    rw [eventLoop.eq_def]; dsimp only; rw [if_neg h]
    exact presetRead_facts rest st l
  | case10 st sup h s rest hd =>
    rw [eventLoop.eq_def]; dsimp only; rw [if_neg h]; simp [hd, pushesOf]
  | case11 st sup h s hd rest st2 ih =>
    rw [eventLoop.eq_def]; dsimp only; rw [if_neg h]
    simp only [hd, if_neg, ite_false]
    simpa [pushesOf] using ih
  | case12 st sup h s hd rest =>
    rw [eventLoop.eq_def]; dsimp only; rw [if_neg h]; simp [hd, pushesOf]
  | case13 st sup h s rest hd h1 h2 =>
    rw [eventLoop.eq_def]; dsimp only; rw [if_neg h]
    cases rest with
    | nil => simp [hd, pushesOf]
    | cons e r =>
      cases e with
      | putOk => exact absurd rfl (h1 r)
      | cancel => exact absurd rfl (h2 r)
      | msg m => simp [hd, pushesOf]
      | line s2 => simp [hd, pushesOf]
  | case14 st sup h rest =>
    rw [eventLoop.eq_def]; dsimp only; rw [if_neg h]; simp [pushesOf]
  | case15 st sup h rest h1 h2 =>
    rw [eventLoop.eq_def]; dsimp only; rw [if_neg h]
    cases rest with
    | nil => simp [pushesOf]
    | cons e r =>
      cases e with
      | line s => exact absurd rfl (h1 s r)
      | cancel => exact absurd rfl (h2 r)
      | msg m => simp [pushesOf]
      | putOk => simp [pushesOf]
  | case16 st line sup h w rest st2 ih =>
    rw [eventLoop.eq_def]; dsimp only; rw [if_neg h]
    simpa [pushesOf] using ih
  | case17 st line sup h rest =>
    rw [eventLoop.eq_def]; dsimp only; rw [if_neg h]; simp [pushesOf]
  | case18 evs st line sup h h1 h2 h3 h4 =>
    rw [eventLoop.eq_def]; dsimp only; rw [if_neg h]
    cases evs with
    | nil => simp [pushesOf]
    | cons e r =>
      cases e with
      | line s => simp [pushesOf]
      | cancel => exact absurd rfl (h4 r)
      | putOk => simp [pushesOf]
      | msg m =>
        cases m with
        | detach => exact absurd rfl (h1 r)
        | read => exact absurd rfl (h2 r)
        | write w => exact absurd rfl (h3 w r)

theorem bufAfter_push_last (init : List DebuggerWrite) (pre : List Act) (s : String) :
    bufAfter init (pre ++ [.push s]) = [] := by
  rw [bufAfter_append]; rfl

theorem bufAfter_no_push (init : List DebuggerWrite) (as : List Act)
    (h : pushesOf as = []) : bufAfter init as = init ++ writesOf as := by
  induction as generalizing init with
  | nil => simp [bufAfter, writesOf]
  | cons a as ih =>
    cases a with
    | push s => simp [pushesOf] at h
    | write w =>
      rw [bufAfter, ih (init ++ [w]) (by simpa [pushesOf] using h)]
      simp [writesOf, List.filterMap_cons]

theorem presetRead_exit_acts (evs : List Ev) (st : DebugSession) (l : String)
    (hl : stripNl l ≠ "detach") :
    ((presetRead evs st l).exit = .afterCast ∧
        (presetRead evs st l).acts = [.push (l ++ "\n")]) ∨
    ((presetRead evs st l).exit ≠ .afterCast ∧ (presetRead evs st l).acts = []) := by
  unfold presetRead
  rw [if_neg hl]
  cases evs with
  | nil => simp
  | cons e r => cases e <;> simp

/-- In preset-line mode (`attach` called by a cast) with a line that is not
`"detach"`, a run pushes exactly the one encoded line when it exits through
`break_after`, and pushes nothing otherwise. -/
theorem eventLoop_preset (evs : List Ev) (st : DebugSession) (l : String)
    (sup : Bool) (hl : stripNl l ≠ "detach") :
    ((eventLoop evs st (some l) sup).exit = .afterCast ∧
        pushesOf (eventLoop evs st (some l) sup).acts = [l ++ "\n"]) ∨
    ((eventLoop evs st (some l) sup).exit ≠ .afterCast ∧
        pushesOf (eventLoop evs st (some l) sup).acts = []) := by
  induction evs generalizing st with
  | nil =>
    rw [eventLoop.eq_def]; dsimp only
    by_cases h : st.needRead = true
    · rw [if_pos h]
      rcases presetRead_exit_acts [] {st with needRead := false} l hl with ⟨h1, h2⟩ | ⟨h1, h2⟩
      · exact Or.inl ⟨h1, by simp [h2, pushesOf]⟩
      · exact Or.inr ⟨h1, by simp [h2, pushesOf]⟩
    · rw [if_neg h]; simp [pushesOf]
  | cons e rest ih =>
    rw [eventLoop.eq_def]; dsimp only
    by_cases h : st.needRead = true
    · rw [if_pos h]
      rcases presetRead_exit_acts (e :: rest) {st with needRead := false} l hl with
        ⟨h1, h2⟩ | ⟨h1, h2⟩
      · exact Or.inl ⟨h1, by simp [h2, pushesOf]⟩
      · exact Or.inr ⟨h1, by simp [h2, pushesOf]⟩
    · rw [if_neg h]
      cases e with
      | line s => simp [pushesOf]
      | putOk => simp [pushesOf]
      | cancel => simp [pushesOf]
      | msg m =>
        cases m with
        | detach => simp [pushesOf]
        | read =>
          rcases presetRead_exit_acts rest st l hl with ⟨h1, h2⟩ | ⟨h1, h2⟩
          · exact Or.inl ⟨h1, by simp [h2, pushesOf]⟩
          · exact Or.inr ⟨h1, by simp [h2, pushesOf]⟩
        | write w =>
          rcases ih {st with outputs := st.outputs ++ [w]} with ⟨h1, h2⟩ | ⟨h1, h2⟩
          · exact Or.inl ⟨h1, by simp [pushesOf, List.filterMap_cons] at h2 ⊢; exact h2⟩
          · exact Or.inr ⟨h1, by simp [pushesOf, List.filterMap_cons] at h2 ⊢; exact h2⟩

/-! ## Claim theorems -/

/-- Claim C1: over every run of the session event loop (any interleaving of
consumed detach/read/write tokens, console lines, pushes and cancellations),
`_outputs_since_last_input` equals the write frames consumed since the last
successful push onto `_pending_send_to_actor` — i.e. it is cleared exactly at
successful pushes and appended to at write frames, and at no other point.
Hence (second conjunct) after a run whose last action is a successful push the
buffer is empty, (third conjunct) a run with no push — e.g. an attach ended by
a `detach` input or by cancellation — keeps the whole previous buffer plus
every newly consumed write frame, and (fourth conjunct) the next
non-suppressed attach replays the stored buffer verbatim (banner, then each
payload) before any new output.  Intermediate points of a run are covered
because the quantification includes every truncated script. -/
theorem claim1_outputs_cleared_exactly_at_push :
    (∀ (evs : List Ev) (st : DebugSession) (line : Option String) (sup : Bool),
       (eventLoop evs st line sup).st.outputs =
         bufAfter st.outputs (eventLoop evs st line sup).acts) ∧
    (∀ (evs : List Ev) (st : DebugSession) (line : Option String) (sup : Bool)
       (pre : List Act) (s : String),
       (eventLoop evs st line sup).acts = pre ++ [Act.push s] →
       (eventLoop evs st line sup).st.outputs = []) ∧
    (∀ (evs : List Ev) (st : DebugSession) (line : Option String) (sup : Bool),
       pushesOf (eventLoop evs st line sup).acts = [] →
       (eventLoop evs st line sup).st.outputs =
         st.outputs ++ writesOf (eventLoop evs st line sup).acts) ∧
    (∀ (evs : List Ev) (st : DebugSession) (line : Option String),
       ∃ tail, (attachRun evs st line false).out =
         ("Attached to debug session for " ++ st.actorName ++ " " ++
             toString st.rank ++ " (" ++ st.hostname ++ ")\n") ::
           ((if st.outputs.length > 0 then
               ["<last pdb output for " ++ st.actorName ++ " " ++
                  toString st.rank ++ " follows>\n"]
             else []) ++ st.outputs.map (·.payload) ++ tail)) := by
  refine ⟨eventLoop_outputs, ?_, ?_, ?_⟩
  · intro evs st line sup pre s h
    rw [eventLoop_outputs, h, bufAfter_push_last]
  · intro evs st line sup h
    rw [eventLoop_outputs, bufAfter_no_push _ _ h]
  · intro evs st line
    unfold attachRun
    cases h : (eventLoop evs {st with active := true} line false).exit <;>
      simp [h, replayOut]

/-- Witness for C1 at a concrete input: initial buffer `[frameB]`, script
"consume a write frame, consume a Read token, read `"n"`, push succeeds" —
the final buffer is empty. -/
theorem claim1_witness :
    (eventLoop [Ev.msg (Msg.write frameA), Ev.msg Msg.read, Ev.line "n", Ev.putOk]
        {sess0 with outputs := [frameB]} none false).st.outputs = [] := by
  exact claim1_outputs_cleared_exactly_at_push.2.1
    [Ev.msg (Msg.write frameA), Ev.msg Msg.read, Ev.line "n", Ev.putOk]
    {sess0 with outputs := [frameB]} none false
    [Act.write frameA] "n\n" (by decide)

/-- Claim C2: whenever a run exits the read branch without pushing — a console
line stripping to `"detach"` (`detachCmd`), or cancellation while awaiting the
console input or the queue push (`cancelledRead`) — `_need_read` is `true` at
exit.  The second conjunct shows the next attach then serves the outstanding
remote read as if a fresh `Read` token had arrived: with `_need_read` set the
loop's first action consumes a console line directly (the script starts with
`Ev.line`, not a message token), without any token being reinserted into the
message queue. -/
theorem claim2_need_read_latch :
    (∀ (evs : List Ev) (st : DebugSession) (line : Option String) (sup : Bool),
       ((eventLoop evs st line sup).exit = .detachCmd ∨
         (eventLoop evs st line sup).exit = .cancelledRead) →
       (eventLoop evs st line sup).st.needRead = true) ∧
    (∀ (evs : List Ev) (st : DebugSession) (sup : Bool) (s : String),
       st.needRead = true → stripNl s ≠ "detach" →
       (eventLoop (Ev.line s :: Ev.putOk :: evs) st none sup).acts =
         Act.push (s ++ "\n") ::
           (eventLoop evs
             {st with needRead := false,
                      pending := st.pending ++ [s ++ "\n"], outputs := []}
             none sup).acts) := by
  constructor
  · intro evs st line sup
    exact (eventLoop_facts evs st line sup).2.2.2
  · intro evs st sup s h hs
    rw [eventLoop.eq_def]; dsimp only; rw [if_pos h]
    simp [hs]

/-- Witness for C2 at a concrete input: a session whose read branch is
cancelled right after consuming a Read token has `_need_read = true`. -/
theorem claim2_witness :
    (eventLoop [Ev.msg Msg.read, Ev.cancel] sess0 none false).st.needRead = true := by
  exact claim2_need_read_latch.1 [Ev.msg Msg.read, Ev.cancel] sess0 none false
    (by decide)

/-- Claim C9: `debugger_write` updates `_function_lineno` only when the frame
carries both a function name and a line number; otherwise the session state is
entirely unchanged; in either case the frame is posted as a `("write", frame)`
token. -/
theorem claim9_debugger_write (st : DebugSession) (w : DebuggerWrite) :
    (debuggerWriteOp st w).2 = .write w ∧
    (∀ f n, w.function = some f → w.lineno = some n →
       (debuggerWriteOp st w).1.functionLineno = some (f, n)) ∧
    (w.function = none ∨ w.lineno = none → (debuggerWriteOp st w).1 = st) := by
  unfold debuggerWriteOp
  rcases hf : w.function with _ | f <;> rcases hl : w.lineno with _ | n <;>
    simp [hf, hl]

/-- Witness for C9 at concrete frames: `frameB` carries both metadata fields
and updates `_function_lineno`; `frameA` carries neither and leaves the
session untouched. -/
theorem claim9_witness :
    (debuggerWriteOp sess0 frameB).1.functionLineno = some ("to_debug", 5) ∧
    (debuggerWriteOp sess0 frameA).1 = sess0 := by
  exact ⟨(claim9_debugger_write sess0 frameB).2.1 "to_debug" 5 rfl rfl,
    (claim9_debugger_write sess0 frameA).2.2 (Or.inl rfl)⟩

/-- Claim C10: `attach` runs the event loop with `_active = True` and resets
`_active = False` exactly on normal completion of the loop; if the loop is
cancelled (or still suspended) the flag remains `True`. -/
theorem claim10_attach_active (evs : List Ev) (st : DebugSession)
    (line : Option String) (sup : Bool) :
    (attachRun evs st line sup).st.active =
      (match (attachRun evs st line sup).exit with
       | .normal => false
       | .cancelled => true
       | .blocked => true) := by
  unfold attachRun
  cases h : (eventLoop evs {st with active := true} line sup).exit <;>
    simp [h, (eventLoop_facts evs {st with active := true} line sup).1]

/-! ## Association-list lemmas (Python dict model) -/

section Alist

variable {α β : Type} [DecidableEq α]

theorem alookup_aupdate_self (l : List (α × β)) (k : α) (v : β) :
    alookup (aupdate l k v) k = some v := by
  induction l with
  | nil => simp [aupdate, alookup]
  | cons p rest ih =>
    rcases p with ⟨k', v'⟩
    by_cases h : k' = k <;> simp [aupdate, alookup, h, ih]

theorem alookup_aupdate_ne (l : List (α × β)) (k k' : α) (v : β) (h : k' ≠ k) :
    alookup (aupdate l k v) k' = alookup l k' := by
  induction l with
  | nil => simp [aupdate, alookup, Ne.symm h]
  | cons p rest ih =>
    rcases p with ⟨k'', v'⟩
    by_cases h2 : k'' = k
    · subst h2; simp [aupdate, alookup, Ne.symm h]
    · by_cases h3 : k'' = k' <;> simp [aupdate, alookup, h2, h3, h, ih]

theorem alookup_aerase_ne (l : List (α × β)) (k k' : α) (h : k' ≠ k) :
    alookup (aerase l k) k' = alookup l k' := by
  induction l with
  | nil => simp [aerase]
  | cons p rest ih =>
    rcases p with ⟨k'', v'⟩
    by_cases h2 : k'' = k
    · subst h2; simp [aerase, alookup, Ne.symm h]
    · by_cases h3 : k'' = k' <;> simp [aerase, alookup, h2, h3, h, ih]

theorem alookup_isSome_iff (l : List (α × β)) (k : α) :
    (alookup l k).isSome ↔ k ∈ l.map Prod.fst := by
  induction l with
  | nil => simp [alookup]
  | cons p rest ih =>
    rcases p with ⟨k', v⟩
    by_cases h : k' = k
    · simp [alookup, h]
    · have h' : ¬ k = k' := fun hh => h hh.symm
      simp [alookup, h, h', ih]

theorem aerase_sublist (l : List (α × β)) (k : α) : (aerase l k).Sublist l := by
  induction l with
  | nil => simp [aerase]
  | cons p rest ih =>
    rcases p with ⟨k', v⟩
    by_cases h : k' = k
    · simp [aerase, h]
    · simpa [aerase, h] using (ih.cons₂ (k', v))

theorem alookup_aerase_self (l : List (α × β)) (k : α)
    (hnd : (l.map Prod.fst).Nodup) : alookup (aerase l k) k = none := by
  induction l with
  | nil => simp [aerase, alookup]
  | cons p rest ih =>
    rcases p with ⟨k', v⟩
    simp only [List.map_cons, List.nodup_cons] at hnd
    by_cases h : k' = k
    · subst h
      cases hk : alookup rest k' with
      | none => simp [aerase, hk]
      | some v' =>
        exact absurd ((alookup_isSome_iff rest k').1 (by simp [hk])) hnd.1
    · simp [aerase, alookup, h, ih hnd.2]

theorem map_fst_aupdate_absent (l : List (α × β)) (k : α) (v : β)
    (h : alookup l k = none) :
    (aupdate l k v).map Prod.fst = l.map Prod.fst ++ [k] := by
  induction l with
  | nil => simp [aupdate]
  | cons p rest ih =>
    rcases p with ⟨k', v'⟩
    by_cases h2 : k' = k
    · simp [alookup, h2] at h
    · simp only [alookup, h2, if_false] at h
      simp [aupdate, h2, ih h]

theorem map_fst_aupdate_present (l : List (α × β)) (k : α) (v : β)
    (h : (alookup l k).isSome) :
    (aupdate l k v).map Prod.fst = l.map Prod.fst := by
  induction l with
  | nil => simp [alookup] at h
  | cons p rest ih =>
    rcases p with ⟨k', v'⟩
    by_cases h2 : k' = k
    · simp [aupdate, h2]
    · simp only [alookup, h2, if_false] at h
      simp [aupdate, h2, ih h]

theorem mem_aupdate {l : List (α × β)} {k : α} {v : β} {p : α × β} :
    p ∈ aupdate l k v → p ∈ l ∨ p = (k, v) := by
  induction l with
  | nil => intro h; simpa [aupdate] using h
  | cons q rest ih =>
    intro h
    rcases q with ⟨k', v'⟩
    by_cases h2 : k' = k
    · simp only [aupdate] at h
      rw [if_pos h2] at h
      rcases List.mem_cons.mp h with h3 | h3
      · exact Or.inr h3
      · exact Or.inl (List.mem_cons_of_mem _ h3)
    · simp only [aupdate] at h
      rw [if_neg h2] at h
      rcases List.mem_cons.mp h with h3 | h3
      · exact Or.inl (by simp [h3])
      · rcases ih h3 with h4 | h4
        · exact Or.inl (List.mem_cons_of_mem _ h4)
        · exact Or.inr h4

theorem alookup_mem {l : List (α × β)} {k : α} {v : β} :
    alookup l k = some v → (k, v) ∈ l := by
  induction l with
  | nil => intro h; simp [alookup] at h
  | cons p rest ih =>
    intro h
    rcases p with ⟨k', v'⟩
    by_cases h2 : k' = k
    · subst h2
      simp only [alookup, if_true, eq_self_iff_true, Option.some.injEq] at h
      simp [h]
    · simp only [alookup, if_neg h2] at h
      exact List.mem_cons_of_mem _ (ih h)

end Alist

/-! ## C4: registry contracts -/

theorem insert_wf (reg : Registry) (s : DebugSession) (reg' : Registry)
    (hwf : registryWF reg) (h : DebugSessions.insert reg s = .ok reg') :
    registryWF reg' := by
  unfold DebugSessions.insert at h
  split at h
  case h_1 h1 =>
    simp only [Except.ok.injEq] at h
    subst h
    constructor
    · rw [map_fst_aupdate_absent reg s.actorName _ h1]
      rw [List.nodup_append]
      refine ⟨hwf.1, List.nodup_singleton _, ?_⟩
      intro x hx hx2
      simp only [List.mem_singleton] at hx2
      subst hx2
      exact absurd ((alookup_isSome_iff reg s.actorName).2 hx) (by simp [h1])
    · intro p hp
      rcases mem_aupdate hp with hp2 | hp2
      · exact hwf.2 p hp2
      · subst hp2; simp
  case h_2 bucket h1 =>
    split at h
    case h_1 h2 =>
      simp only [Except.ok.injEq] at h
      subst h
      constructor
      · rw [map_fst_aupdate_present reg s.actorName _ (by simp [h1])]
        exact hwf.1
      · intro p hp
        rcases mem_aupdate hp with hp2 | hp2
        · exact hwf.2 p hp2
        · subst hp2
          have hb : (s.actorName, bucket) ∈ reg := alookup_mem h1
          have hbnd := hwf.2 _ hb
          simp only at hbnd ⊢
          rw [map_fst_aupdate_absent bucket s.rank _ h2, List.nodup_append]
          refine ⟨hbnd, List.nodup_singleton _, ?_⟩
          intro x hx hx2
          simp only [List.mem_singleton] at hx2
          subst hx2
          exact absurd ((alookup_isSome_iff bucket s.rank).2 hx) (by simp [h2])
    case h_2 old h2 => exact absurd h (by simp)

theorem remove_wf (reg : Registry) (name : String) (rank : Nat)
    (s : DebugSession) (reg' : Registry) (hwf : registryWF reg)
    (h : DebugSessions.remove reg name rank = .ok (s, reg')) :
    registryWF reg' := by
  unfold DebugSessions.remove at h
  split at h
  case h_1 h1 => exact absurd h (by simp)
  case h_2 bucket h1 =>
    split at h
    case h_1 h2 => exact absurd h (by simp)
    case h_2 s2 h2 =>
      simp only [Except.ok.injEq, Prod.mk.injEq] at h
      rcases h with ⟨_, h⟩
      subst h
      split
      · constructor
        · exact hwf.1.sublist ((aerase_sublist reg name).map Prod.fst)
        · intro p hp
          exact hwf.2 p ((aerase_sublist reg name).subset hp)
      · constructor
        · rw [map_fst_aupdate_present reg name _ (by simp [h1])]
          exact hwf.1
        · intro p hp
          rcases mem_aupdate hp with hp2 | hp2
          · exact hwf.2 p hp2
          · subst hp2
            have hb : (name, bucket) ∈ reg := alookup_mem h1
            have hbnd := hwf.2 _ hb
            exact hbnd.sublist ((aerase_sublist bucket rank).map Prod.fst)

/-- Claim C4: registry contracts of `DebugSessions`.  `insert` fails — with the
exact message `"Debug session for rank {rank} already exists for actor
{actor_name}"`, which contains `"already exists"` — iff the key is already
present (on failure no registry is produced, so the registry is unchanged);
`get` and `remove` fail iff the key is absent, with
`"No debug sessions for actor {actor_name}"` when the actor is unknown and
`"No debug session for rank {rank} for actor {actor_name}"` when only the
rank is missing; removing the last rank of an actor deletes the actor's
bucket; and both `insert` and `remove` preserve well-formedness, so at most
one session per `(actor_name, rank)` ever exists. -/
theorem claim4_registry_contracts :
    (∀ (reg : Registry) (s : DebugSession),
       ((∃ e, DebugSessions.insert reg s = .error e) ↔
         DebugSessions.containsKey reg s.actorName s.rank = true) ∧
       (∀ e, DebugSessions.insert reg s = .error e →
         e = "Debug session for rank " ++ toString s.rank ++
               " already exists for actor " ++ s.actorName ∧
         List.IsInfix "already exists".toList e.toList)) ∧
    (∀ (reg : Registry) (name : String) (rank : Nat),
       ((∃ e, DebugSessions.get reg name rank = .error e) ↔
         DebugSessions.containsKey reg name rank = false) ∧
       (alookup reg name = none →
         DebugSessions.get reg name rank =
           .error ("No debug sessions for actor " ++ name)) ∧
       (∀ bucket, alookup reg name = some bucket → alookup bucket rank = none →
         DebugSessions.get reg name rank =
           .error ("No debug session for rank " ++ toString rank ++
             " for actor " ++ name))) ∧
    (∀ (reg : Registry) (name : String) (rank : Nat),
       ((∃ e, DebugSessions.remove reg name rank = .error e) ↔
         DebugSessions.containsKey reg name rank = false) ∧
       (alookup reg name = none →
         DebugSessions.remove reg name rank =
           .error ("No debug sessions for actor " ++ name)) ∧
       (∀ bucket, alookup reg name = some bucket → alookup bucket rank = none →
         DebugSessions.remove reg name rank =
           .error ("No debug session for rank " ++ toString rank ++
             " for actor " ++ name))) ∧
    (∀ (reg : Registry) (name : String) (rank : Nat) (s : DebugSession),
       registryWF reg → alookup reg name = some [(rank, s)] →
       ∃ reg', DebugSessions.remove reg name rank = .ok (s, reg') ∧
         alookup reg' name = none) ∧
    (∀ (reg : Registry) (s : DebugSession) (reg' : Registry),
       registryWF reg → DebugSessions.insert reg s = .ok reg' → registryWF reg') ∧
    (∀ (reg : Registry) (name : String) (rank : Nat) (s : DebugSession)
       (reg' : Registry),
       registryWF reg → DebugSessions.remove reg name rank = .ok (s, reg') →
       registryWF reg') := by
  refine ⟨?_, ?_, ?_, ?_, insert_wf, remove_wf⟩
  · intro reg s
    constructor
    · rcases h1 : alookup reg s.actorName with _ | bucket
      · simp [DebugSessions.insert, DebugSessions.containsKey, h1]
      · rcases h2 : alookup bucket s.rank with _ | old <;>
          simp [DebugSessions.insert, DebugSessions.containsKey, h1, h2]
    · intro e he
      unfold DebugSessions.insert at he
      split at he
      case h_1 h1 => exact absurd he (by simp)
      case h_2 bucket h1 =>
        split at he
        case h_1 h2 => exact absurd he (by simp)
        case h_2 old h2 =>
          simp only [Except.error.injEq] at he
          subst he
          refine ⟨rfl, ?_⟩
          refine ⟨"Debug session for rank ".toList ++ (toString s.rank).toList ++
            " ".toList, " for actor ".toList ++ s.actorName.toList, ?_⟩
          show _ ++ _ ++ _ = _
          simp only [String.toList, String.data_append, List.append_assoc]
          rfl
  · intro reg name rank
    refine ⟨?_, ?_, ?_⟩
    · rcases h1 : alookup reg name with _ | bucket
      · simp [DebugSessions.get, DebugSessions.containsKey, h1]
      · rcases h2 : alookup bucket rank with _ | s <;>
          simp [DebugSessions.get, DebugSessions.containsKey, h1, h2]
    · intro h1; simp [DebugSessions.get, h1]
    · intro bucket h1 h2; simp [DebugSessions.get, h1, h2]
  · intro reg name rank
    refine ⟨?_, ?_, ?_⟩
    · rcases h1 : alookup reg name with _ | bucket
      · simp [DebugSessions.remove, DebugSessions.containsKey, h1]
      · rcases h2 : alookup bucket rank with _ | s <;>
          simp [DebugSessions.remove, DebugSessions.containsKey, h1, h2]
    · intro h1; simp [DebugSessions.remove, h1]
    · intro bucket h1 h2; simp [DebugSessions.remove, h1, h2]
  · intro reg name rank s hwf h1
    refine ⟨aerase reg name, ?_, ?_⟩
    · simp [DebugSessions.remove, h1, alookup, aerase]
    · exact alookup_aerase_self reg name hwf.1

/-- Witness for C4 at the concrete registry `reg0 = {"actor": {0: sess0}}`:
re-inserting the existing key fails, getting a missing rank or actor fails,
and removing the only rank deletes the actor's bucket. -/
theorem claim4_witness :
    (∃ e, DebugSessions.insert reg0 sess0 = .error e) ∧
    (∃ e, DebugSessions.get reg0 "actor" 1 = .error e) ∧
    DebugSessions.remove reg0 "other" 0 =
      .error ("No debug sessions for actor " ++ "other") ∧
    (∃ reg', DebugSessions.remove reg0 "actor" 0 = .ok (sess0, reg') ∧
      alookup reg' "actor" = none) := by
  refine ⟨(claim4_registry_contracts.1 reg0 sess0).1.mpr (by decide),
    (claim4_registry_contracts.2.1 reg0 "actor" 1).1.mpr (by decide),
    (claim4_registry_contracts.2.2.1 reg0 "other" 0).2.1 (by decide),
    claim4_registry_contracts.2.2.2.1 reg0 "actor" 0 sess0
      ⟨by decide, by intro p hp; simp only [reg0, List.mem_singleton] at hp; subst hp; decide⟩
      (by decide)⟩

/-- Claim C6: with the debug I/O in CLI mode (which holds from construction and
after every `enter`), `debug_cli_input` and `debug_cli_output` fail exactly
when no CLI actor id is bound or the supplied id differs from the bound one;
after `enter` binds a new id, every call carrying a different (e.g. the
previous) id fails and calls carrying the new id succeed. -/
theorem claim6_cli_binding :
    (∀ (c : ControllerState) (inp : String) (id : Nat), c.ioIsCli = true →
       ((∃ e, debugCliInput c inp id = .error e) ↔ c.currentCliId ≠ some id)) ∧
    (∀ (c : ControllerState) (id : Nat), c.ioIsCli = true →
       ((∃ e, debugCliOutput c id = .error e) ↔ c.currentCliId ≠ some id)) ∧
    (∀ (c : ControllerState) (id id' : Nat) (inp : String), id' ≠ id →
       (∃ e, debugCliInput (c.enter id) inp id' = .error e) ∧
       (∃ e, debugCliOutput (c.enter id) id' = .error e) ∧
       (∃ c', debugCliInput (c.enter id) inp id = .ok c') ∧
       (∃ out, debugCliOutput (c.enter id) id = .ok out)) := by
  refine ⟨?_, ?_, ?_⟩
  · intro c inp id hio
    rcases h1 : c.currentCliId with _ | cur
    · simp [debugCliInput, h1]
    · by_cases h2 : cur = id <;> simp [debugCliInput, h1, h2, hio]
  · intro c id hio
    rcases h1 : c.currentCliId with _ | cur
    · simp [debugCliOutput, h1]
    · by_cases h2 : cur = id <;> simp [debugCliOutput, h1, h2, hio]
  · intro c id id' inp hne
    refine ⟨?_, ?_, ?_, ?_⟩
    · simp [ControllerState.enter, debugCliInput, Ne.symm hne]
    · simp [ControllerState.enter, debugCliOutput, Ne.symm hne]
    · exact ⟨{c.enter id with inputQueue := [inp]},
        by simp [ControllerState.enter, debugCliInput]⟩
    · exact ⟨([], c.enter id),
        by simp [ControllerState.enter, debugCliOutput]⟩

/-- Witness for C6: after binding CLI id 1 over the initial state, id 2 is
rejected and id 1 is accepted. -/
theorem claim6_witness :
    (∃ e, debugCliInput (ControllerState.init.enter 1) "l" 2 = .error e) ∧
    (∃ c', debugCliInput (ControllerState.init.enter 1) "l" 1 = .ok c') := by
  refine ⟨(claim6_cli_binding.2.2 ControllerState.init 1 2 "l" (by decide)).1,
    (claim6_cli_binding.2.2 ControllerState.init 1 2 "l" (by decide)).2.2.1⟩

/-- Claim C5: `MAX` is `sys.maxsize = 2^63 - 1`; a `ranks(start:stop:step)`
selector parses to the range with the literal bounds, a missing start
defaulting to 0, a missing stop to `sys.maxsize` and a missing step to 1
(shown on scenario S1 and on representative range selectors); and membership
in the parsed range is exactly the half-open `[start, stop)` filtered by the
step. -/
theorem claim5_rank_range_defaults :
    sysMaxsize = 2 ^ 63 - 1 ∧
    DebugCommand.parse "cast debugee ranks(dim1=123, dim2=(12,34,56), dim3=15::2) up 2" =
      some (.cast "debugee"
        (.dims [("dim1", .single 123), ("dim2", .list [12, 34, 56]),
                ("dim3", .range ⟨15, sysMaxsize, 2⟩)]) "up 2") ∧
    DebugCommand.parse "cast debugee ranks(:123) b 25" =
      some (.cast "debugee" (.range ⟨0, 123, 1⟩) "b 25") ∧
    DebugCommand.parse "cast debugee ranks(123:) b 25" =
      some (.cast "debugee" (.range ⟨123, sysMaxsize, 1⟩) "b 25") ∧
    DebugCommand.parse "cast debugee ranks(456:789:123) b 25" =
      some (.cast "debugee" (.range ⟨456, 789, 123⟩) "b 25") ∧
    (∀ (r : RankRange) (x : Nat), 0 < r.step →
       (r.mem x = true ↔ r.start ≤ x ∧ x < r.stop ∧ (x - r.start) % r.step = 0)) := by
  refine ⟨by decide, by decide, by decide, by decide, by decide, ?_⟩
  intro r x _hstep
  simp [RankRange.mem, and_assoc]

/-- Witness for C5: 17 is in the parsed `ranks(15::2)` range. -/
theorem claim5_witness :
    RankRange.mem ⟨15, sysMaxsize, 2⟩ 17 = true := by
  exact (claim5_rank_range_defaults.2.2.2.2.2 ⟨15, sysMaxsize, 2⟩ 17
    (by decide)).mpr (by norm_num [sysMaxsize])

/-- Claim C7: the four malformed console lines of scenario S2 all make `parse`
return `None` (the Python wrapper catches the parse exception and prints an
error line) instead of raising, so the REPL keeps running. -/
theorem claim7_parse_rejects_malformed :
    DebugCommand.parse "" = none ∧
    DebugCommand.parse "attach" = none ∧
    DebugCommand.parse "cast actor ranks() b 25" = none ∧
    DebugCommand.parse "cast actor ranks(:::) b 25" = none := by
  exact ⟨by decide, by decide, by decide, by decide⟩

/-- Counterexample to claim C8: the pdb part of `cast` is *not* free-form — the
grammar's terminal is `/\w+.*/`, so a pdb command starting with a non-word
character such as `"!x"` fails to parse, although the claim says any non-empty
pdb text is accepted. -/
theorem claim8_counterexample :
    DebugCommand.parse "cast actor ranks(0) !x" = none := by decide

theorem wordC_not_ws (c : Char) (h : isWordC c = true) : c.isWhitespace = false := by
  cases hw : c.isWhitespace
  · rfl
  · have hmem : ((c = ' ' ∨ c = '\t') ∨ c = '\x0d') ∨ c = '\n' := by
      simpa [Char.isWhitespace] using hw
    rcases hmem with ((h1 | h1) | h1) | h1 <;> subst h1 <;> exact absurd h (by decide)

theorem takeWhile_ne_newline (l : List Char) (h : '\n' ∉ l) :
    l.takeWhile (· ≠ '\n') = l := by
  induction l with
  | nil => rfl
  | cons c cs ih =>
    simp only [List.mem_cons, not_or] at h
    have hc : decide (c ≠ '\n') = true :=
      decide_eq_true (fun hh => h.1 hh.symm)
    rw [List.takeWhile_cons, if_pos hc, ih h.2]

theorem dropWhile_ne_newline (l : List Char) (h : '\n' ∉ l) :
    l.dropWhile (· ≠ '\n') = [] := by
  induction l with
  | nil => rfl
  | cons c cs ih =>
    simp only [List.mem_cons, not_or] at h
    have hc : decide (c ≠ '\n') = true :=
      decide_eq_true (fun hh => h.1 hh.symm)
    rw [List.dropWhile_cons, if_pos hc, ih h.2]

theorem parsePdb_all (c : Char) (cs : List Char) (hw : isWordC c = true)
    (hnl : '\n' ∉ cs) : parsePdb (' ' :: c :: cs) = some (⟨c :: cs⟩, []) := by
  have h1 : skipWS (' ' :: c :: cs) = skipWS (c :: cs) := rfl
  have h2 : skipWS (c :: cs) = c :: cs := by
    simp [skipWS, List.dropWhile_cons, wordC_not_ws c hw]
  unfold parsePdb
  rw [h1, h2]
  dsimp only
  rw [if_pos hw, takeWhile_ne_newline cs hnl, dropWhile_ne_newline cs hnl]

theorem tryCast_pdb (c : Char) (cs : List Char) (hw : isWordC c = true)
    (hnl : '\n' ∉ cs) :
    tryCast ("cast actor ranks(0) ".toList ++ (c :: cs)) =
      some (.cast "actor" (.single 0) ⟨c :: cs⟩) := by
  have key : tryCast ("cast actor ranks(0) ".toList ++ (c :: cs)) =
      (match parsePdb (' ' :: c :: cs) with
       | some (cmd, l4) =>
         if atEnd l4 then some (.cast "actor" (.single 0) cmd) else none
       | none => none) := rfl
  rw [key, parsePdb_all c cs hw hnl]
  rfl

/-- Claim C8 as amended: the pdb part of a cast command must match `/\w+.*/`: it
must begin with a word character (letter, digit or underscore).  For the
representative command prefix `cast actor ranks(0) `, every newline-free pdb
text starting with a word character parses to a `Cast` whose command field is
exactly that text (the free-form `.* ` tail may contain arbitrary characters,
as in `"x! $#"`); a pdb text starting with a non-word character is rejected
(see the counterexample). -/
theorem claim8_amended (c : Char) (cs : List Char) (hw : isWordC c = true)
    (hnl : '\n' ∉ cs) :
    parseCommandL ("cast actor ranks(0) ".toList ++ (c :: cs)) =
      some (.cast "actor" (.single 0) ⟨c :: cs⟩) := by
  have h1 : tryAttach ("cast actor ranks(0) ".toList ++ (c :: cs)) = none := rfl
  have h2 : tryListCmd ("cast actor ranks(0) ".toList ++ (c :: cs)) = none := rfl
  unfold parseCommandL
  rw [h1, h2, tryCast_pdb c cs hw hnl]
  rfl

/-- Witness for C8's amended theorem at the concrete pdb text `"x! $#"`. -/
theorem claim8_witness :
    parseCommandL ("cast actor ranks(0) ".toList ++ ('x' :: "! $#".toList)) =
      some (.cast "actor" (.single 0) "x! $#") := by
  exact claim8_amended 'x' "! $#".toList (by decide) (by decide)

/-! ## C3: casting a command -/

theorem regGet_updateSession_ne (reg : Registry) (name : String) (rank : Nat)
    (f : DebugSession → DebugSession) (n' : String) (r' : Nat)
    (h : ¬(n' = name ∧ r' = rank)) :
    regGet (updateSession reg name rank f) n' r' = regGet reg n' r' := by
  unfold updateSession
  split
  · rfl
  case h_2 bucket h1 =>
    split
    · rfl
    case h_2 s h2 =>
      unfold regGet
      by_cases hx : n' = name
      · subst hx
        rw [alookup_aupdate_self, h1]
        have hr : r' ≠ rank := fun hh => h ⟨rfl, hh⟩
        simp only [Option.bind]
        rw [alookup_aupdate_ne _ _ _ _ hr]
      · rw [alookup_aupdate_ne _ _ _ _ hx]

theorem regGet_updateSession_self (reg : Registry) (name : String) (rank : Nat)
    (f : DebugSession → DebugSession) (s : DebugSession)
    (h : regGet reg name rank = some s) :
    regGet (updateSession reg name rank f) name rank = some (f s) := by
  unfold regGet at h
  rcases h1 : alookup reg name with _ | bucket
  · rw [h1] at h; simp at h
  · rw [h1] at h
    simp only [Option.bind] at h
    unfold updateSession
    rw [h1]
    dsimp only
    rw [h]
    dsimp only
    unfold regGet
    rw [alookup_aupdate_self]
    simp only [Option.bind]
    rw [alookup_aupdate_self]

theorem castFold_not_mem (command : String) (scripts : String → Nat → List Ev)
    (ss : List DebugSession) (reg : Registry) (n : String) (r : Nat)
    (h : (n, r) ∉ ss.map (fun s => (s.actorName, s.rank))) :
    regGet (ss.foldl (fun acc s => updateSession acc s.actorName s.rank
        (fun cur => (attachRun (scripts s.actorName s.rank) cur (some command) true).st))
      reg) n r = regGet reg n r := by
  induction ss generalizing reg with
  | nil => rfl
  | cons s tl ih =>
    simp only [List.map_cons, List.mem_cons, not_or] at h
    rw [List.foldl_cons, ih _ h.2, regGet_updateSession_ne]
    intro hh
    exact h.1 (by simp [Prod.ext_iff, hh.1, hh.2])

theorem castFold_mem (command : String) (scripts : String → Nat → List Ev)
    (ss : List DebugSession) (reg : Registry) (n : String) (r : Nat)
    (s : DebugSession)
    (hnd : (ss.map (fun s => (s.actorName, s.rank))).Nodup)
    (hmem : (n, r) ∈ ss.map (fun s => (s.actorName, s.rank)))
    (hget : regGet reg n r = some s) :
    regGet (ss.foldl (fun acc s => updateSession acc s.actorName s.rank
        (fun cur => (attachRun (scripts s.actorName s.rank) cur (some command) true).st))
      reg) n r = some (attachRun (scripts n r) s (some command) true).st := by
  induction ss generalizing reg s with
  | nil => simp at hmem
  | cons s0 tl ih =>
    simp only [List.map_cons, List.mem_cons] at hmem
    simp only [List.map_cons, List.nodup_cons] at hnd
    rw [List.foldl_cons]
    rcases hmem with heq | hmem
    · have hn : n = s0.actorName := congrArg Prod.fst heq
      have hr : r = s0.rank := congrArg Prod.snd heq
      rw [castFold_not_mem command scripts tl _ n r (heq ▸ hnd.1)]
      subst hn; subst hr
      exact regGet_updateSession_self reg _ _ _ s hget
    · have hne : ¬(n = s0.actorName ∧ r = s0.rank) := by
        intro hh
        exact hnd.1 (by rw [← show (n, r) = (s0.actorName, s0.rank) by
          simp [Prod.ext_iff, hh.1, hh.2]]; exact hmem)
      exact ih _ s hnd.2 hmem
        ((regGet_updateSession_ne reg _ _ _ n r hne).trans hget)

theorem attachRun_factored (evs : List Ev) (st : DebugSession)
    (line : Option String) (sup : Bool) :
    (attachRun evs st line sup).st.pending =
      (eventLoop evs {st with active := true} line sup).st.pending ∧
    (attachRun evs st line sup).loopExit =
      (eventLoop evs {st with active := true} line sup).exit := by
  unfold attachRun
  cases h : (eventLoop evs {st with active := true} line sup).exit <;> simp [h]

/-- Counterexample to claim C3: casting is *not* guaranteed to push exactly one
encoded line to every selected session.  Casting the (parseable) command
`"detach"` over a selection that yields exactly one session pushes nothing:
the preset line strips to `"detach"`, so the event loop latches `_need_read`
and breaks without touching `_pending_send_to_actor`. -/
theorem claim3_counterexample :
    iterKeys reg0 (some ("actor", some (.single 0))) = [("actor", 0)] ∧
    regGet (castInputAndWait reg0 "detach" (some ("actor", some (.single 0)))
        (fun _ _ => [Ev.msg Msg.read, Ev.putOk])) "actor" 0 =
      some {sess0 with needRead := true} ∧
    ({sess0 with needRead := true}).pending = [] := by
  exact ⟨by decide, by decide, by decide⟩

/-- Claim C3 as amended: for a cast of a command `cmd` whose newline-stripped text
is not `"detach"`, over a selection whose yielded sessions have distinct
keys: sessions outside the selection are completely untouched; each selected
session is replaced by the result of its one suppressed preset attach; and
such an attach pushes exactly the encoded line `cmd + "\n"` onto
`_pending_send_to_actor` when its loop exits through the post-push
`break_after` (which it does whenever a Read token is served un-cancelled),
and pushes nothing otherwise. -/
theorem claim3_amended (reg : Registry) (cmd : String)
    (sel : Option (String × Option RanksType)) (scripts : String → Nat → List Ev)
    (hcmd : stripNl cmd ≠ "detach") (hnd : (iterKeys reg sel).Nodup) :
    (∀ n r, (n, r) ∉ iterKeys reg sel →
       regGet (castInputAndWait reg cmd sel scripts) n r = regGet reg n r) ∧
    (∀ n r s, (n, r) ∈ iterKeys reg sel → regGet reg n r = some s →
       regGet (castInputAndWait reg cmd sel scripts) n r =
         some (attachRun (scripts n r) s (some cmd) true).st) ∧
    (∀ (s : DebugSession) (evs : List Ev),
       ((attachRun evs s (some cmd) true).loopExit = .afterCast ∧
          (attachRun evs s (some cmd) true).st.pending =
            s.pending ++ [cmd ++ "\n"]) ∨
       ((attachRun evs s (some cmd) true).loopExit ≠ .afterCast ∧
          (attachRun evs s (some cmd) true).st.pending = s.pending)) := by
  refine ⟨?_, ?_, ?_⟩
  · intro n r hn
    exact castFold_not_mem cmd scripts _ reg n r hn
  · intro n r s hmem hget
    exact castFold_mem cmd scripts _ reg n r s hnd hmem hget
  · intro s evs
    have hfac := attachRun_factored evs s (some cmd) true
    have hp := (eventLoop_facts evs {s with active := true} (some cmd) true).2.2.1
    rcases eventLoop_preset evs {s with active := true} cmd true hcmd with
      ⟨h1, h2⟩ | ⟨h1, h2⟩
    · left
      refine ⟨hfac.2.trans h1, ?_⟩
      rw [hfac.1, hp, h2]
    · right
      refine ⟨fun hh => h1 (hfac.2.symm.trans hh), ?_⟩
      rw [hfac.1, hp, h2]
      simp

/-- Witness for C3's amended theorem: casting `"n"` over the selection of
rank 0 pushes exactly `"n\n"` there, and a cast over a selection of a
different actor leaves the session untouched. -/
theorem claim3_witness :
    regGet (castInputAndWait reg0 "n" (some ("actor", some (.single 0)))
        (fun _ _ => [Ev.msg Msg.read, Ev.putOk])) "actor" 0 =
      some {sess0 with pending := ["n\n"]} ∧
    regGet (castInputAndWait reg0 "n" (some ("other", none))
        (fun _ _ => [])) "actor" 0 = some sess0 := by
  have h := claim3_amended reg0 "n" (some ("actor", some (.single 0)))
    (fun _ _ => [Ev.msg Msg.read, Ev.putOk]) (by decide) (by decide)
  have h2 := claim3_amended reg0 "n" (some ("other", none)) (fun _ _ => [])
    (by decide) (by decide)
  constructor
  · rw [h.2.1 "actor" 0 sess0 (by decide) (by decide)]
    decide
  · rw [h2.1 "actor" 0 (by decide)]
    decide

end Monarch
